import Mathlib

/-!
Verification of the `uuid` Go package (uuid.go).

The shallow embedding models Go byte slices and arrays as `List Nat` whose
elements are bytes (naturals < 256).  A `UUID` ([16]byte) is a list of length
16.  Go's `encoding/hex` primitives, the formatting/parsing code, the
generators and the marshalling adapters of uuid.go are transliterated below;
`crypto/md5` and `crypto/sha1` (external libraries) are abstracted as a digest
function parameter, and `crypto/rand` output is passed in as an explicit byte
list.  Panics (out-of-range slice indexing, and `Must`) are modelled with
`Option`/an explicit panic constructor where a claim is about them.
-/

namespace UUIDSpec

/-- ASCII hyphen-minus, the `dash` constant of uuid.go. -/
def dash : Nat := 45

/-- Lowercase hex digit of a nibble: `encoding/hex`'s `hextable` lookup
(`"0123456789abcdef"[n]`): 48 is ASCII 0, 87 + 10 is ASCII a. -/
def hexDigit (n : Nat) : Nat := if n < 10 then 48 + n else 87 + n

/-- Go `encoding/hex.Encode`: each source byte becomes two lowercase hex chars,
high nibble first. -/
def hexEncode : List Nat → List Nat
  | [] => []
  | b :: bs => hexDigit (b / 16) :: hexDigit (b % 16) :: hexEncode bs

/-- Go `encoding/hex.fromHexChar`: 48-57 are ASCII 0-9, 97-102 a-f, 65-70 A-F. -/
def fromHexChar (c : Nat) : Option Nat :=
  if 48 ≤ c ∧ c ≤ 57 then some (c - 48)
  else if 97 ≤ c ∧ c ≤ 102 then some (c - 97 + 10)
  else if 65 ≤ c ∧ c ≤ 70 then some (c - 65 + 10)
  else none

/-- Go `encoding/hex.Decode`: consume the input two chars at a time; any
non-hex char, or a dangling odd char, is an error (`none`). -/
def hexDecode : List Nat → Option (List Nat)
  | [] => some []
  | [_] => none
  | c1 :: c2 :: rest =>
    match fromHexChar c1, fromHexChar c2, hexDecode rest with
    | some h, some l, some ds => some ((h * 16 + l) :: ds)
    | _, _, _ => none

/-- A char is a valid hex digit iff `fromHexChar` accepts it. -/
def isHexChar (c : Nat) : Bool := (fromHexChar c).isSome

theorem fromHexChar_hexDigit (n : Nat) (h : n < 16) :
    fromHexChar (hexDigit n) = some n := by
  unfold fromHexChar hexDigit
  split_ifs <;> simp_all <;> omega

theorem hexEncode_length (bs : List Nat) : (hexEncode bs).length = 2 * bs.length := by
  induction bs with
  | nil => rfl
  | cons b bs ih => simp [hexEncode, ih]; omega

theorem hexDecode_hexEncode (bs : List Nat) (h : ∀ x ∈ bs, x < 256) :
    hexDecode (hexEncode bs) = some bs := by
  induction bs with
  | nil => rfl
  | cons b bs ih =>
    have hb : b < 256 := h b (by simp)
    have hhi : b / 16 < 16 := by omega
    have hlo : b % 16 < 16 := by omega
    have hsplit : b / 16 * 16 + b % 16 = b := by omega
    simp only [hexEncode, hexDecode, fromHexChar_hexDigit _ hhi, fromHexChar_hexDigit _ hlo,
      ih (fun x hx => h x (by simp [hx])), hsplit]

/-- Induction principle matching `hexDecode`'s two-at-a-time recursion. -/
theorem twoStepInduction {P : List Nat → Prop} (h0 : P []) (h1 : ∀ c, P [c])
    (h2 : ∀ c1 c2 rest, P rest → P (c1 :: c2 :: rest)) : ∀ l, P l
  | [] => h0
  | [c] => h1 c
  | c1 :: c2 :: rest => h2 c1 c2 rest (twoStepInduction h0 h1 h2 rest)

theorem hexDecode_isSome (cs : List Nat) (h : cs.length % 2 = 0) :
    (hexDecode cs).isSome = cs.all isHexChar := by
  induction cs using twoStepInduction with
  | h0 => rfl
  | h1 c => simp at h
  | h2 c1 c2 rest ih =>
    have hr : rest.length % 2 = 0 := by simp at h; omega
    rcases hc1 : fromHexChar c1 with _ | v1 <;>
      rcases hc2 : fromHexChar c2 with _ | v2 <;>
      rcases hrest : hexDecode rest with _ | ds <;>
      · have := ih hr
        simp_all [hexDecode, isHexChar, List.all_cons]

theorem hexDecode_length (cs ds : List Nat) (h : hexDecode cs = some ds) :
    ds.length = cs.length / 2 := by
  induction cs using twoStepInduction generalizing ds with
  | h0 => simp [hexDecode] at h; simp [h]
  | h1 c => simp [hexDecode] at h
  | h2 c1 c2 rest ih =>
    rcases hc1 : fromHexChar c1 with _ | v1 <;> rcases hc2 : fromHexChar c2 with _ | v2 <;>
      rcases hrest : hexDecode rest with _ | es <;> simp_all [hexDecode]
    subst h
    simp [ih]
    omega

/-- The single parse/decode error of uuid.go, `ErrInvalidUUID`
(`errors.New("uuid: invalid uuid provided")`); it is the only error value the
package ever constructs for bad input, so the type has one constructor. -/
inductive Err where
  | invalidUUID
deriving DecidableEq, Repr

/-- The zero value of the `UUID` array type: `var u UUID` = 16 zero bytes. -/
def zeroUUID : List Nat := List.replicate 16 0

/-- Go `copy(dst, src)` on byte slices: overwrite a prefix of `dst` with
`src`, truncating `src` to `dst`'s length; the tail of `dst` is kept. -/
def listCopy (dst src : List Nat) : List Nat :=
  src.take dst.length ++ dst.drop src.length

/-- Go `copy(dst[i:], src)` where `src` fits: bytes `i ..` of `dst` get
overwritten by `src` (used for `hex.Decode(u[iu:], ...)` writes). -/
def listWriteAt (dst : List Nat) (i : Nat) (src : List Nat) : List Nat :=
  dst.take i ++ listCopy (dst.drop i) src

/-- Go `setVersion`: `u[6] = u[6]&0x0f | v<<4` (byte arithmetic, `v<<4` truncated
mod 256 as Go bytes are). -/
def setVersion (u : List Nat) (v : Nat) : List Nat :=
  u.set 6 ((u.getD 6 0 &&& 0x0f) ||| ((v <<< 4) % 256))

/-- Go `setVariant`: `u[8] = u[8]&0x3f | 0x80`. -/
def setVariant (u : List Nat) : List Nat :=
  u.set 8 ((u.getD 8 0 &&& 0x3f) ||| 0x80)

/-- Go `Version`: `int(u[6] >> 4)`. -/
def Version (u : List Nat) : Nat := u.getD 6 0 >>> 4

/-- Go `usingHash h namespace name version`: the digest runs over the namespace
bytes followed by the name bytes (`h.Write(namespace[:]); h.Write(name)`),
`copy(u[:], h.Sum(nil))` truncates the digest into the 16-byte array, then the
version and variant bits are overwritten.  The external `hash.Hash` is
abstracted as the function `digest` from the written bytes to the digest. -/
def usingHash (digest : List Nat → List Nat) (namespace_ name : List Nat)
    (version : Nat) : List Nat :=
  setVariant (setVersion (listCopy zeroUUID (digest (namespace_ ++ name))) version)

/-- Go `NewV3`: MD5-based name UUID, version 3; `md5` abstracts `crypto/md5`. -/
def NewV3 (md5 : List Nat → List Nat) (namespace_ name : List Nat) : List Nat :=
  usingHash md5 namespace_ name 3

/-- Go `NewV5`: SHA1-based name UUID, version 5; `sha1` abstracts `crypto/sha1`. -/
def NewV5 (sha1 : List Nat → List Nat) (namespace_ name : List Nat) : List Nat :=
  usingHash sha1 namespace_ name 5

/-- Go `NewV4` success path: `io.ReadFull(rand.Reader, u[:])` filled the 16-byte
array with `rand16`, then version 4 and the variant are set.  The random
source is abstracted as the bytes it produced. -/
def NewV4 (rand16 : List Nat) : List Nat :=
  setVariant (setVersion rand16 4)

/-- Go `NewV7` success path: `ms := uint64(now.UnixMilli())` (wrap mod 2^64 of
the millisecond timestamp), bytes 0-5 are `byte(ms >> 40) .. byte(ms)`,
bytes 6-15 came from `io.ReadFull(rand.Reader, u[6:])`, then version 7 and
the variant are set. -/
def NewV7 (ms : Int) (rand10 : List Nat) : List Nat :=
  let msU : Nat := (ms % (2 ^ 64)).toNat
  setVariant (setVersion
    ([(msU >>> 40) % 256, (msU >>> 32) % 256, (msU >>> 24) % 256,
      (msU >>> 16) % 256, (msU >>> 8) % 256, msU % 256] ++ rand10) 7)

/-- Go `Time`: a `time.Time` is modelled by its `UnixMilli` integer; the zero
`time.Time{}` of the invalid branch is modelled as 0.  If the version is not
7 the function returns early with `false`; otherwise bytes 0-5 are read back
as a 48-bit big-endian integer
(`uint64(u[5]) | uint64(u[4])<<8 | ... | uint64(u[0])<<40`) and
`time.UnixMilli(int64(ms))` is returned with `true`. -/
def Time (u : List Nat) : Int × Bool :=
  if Version u ≠ 7 then (0, false)
  else
    let ms : Nat :=
      u.getD 5 0 ||| (u.getD 4 0 <<< 8) ||| (u.getD 3 0 <<< 16) |||
        (u.getD 2 0 <<< 24) ||| (u.getD 1 0 <<< 32) ||| (u.getD 0 0 <<< 40)
    ((ms : Int), true)

/-- Go `u.format(buf)` / `Format`: `hex.Encode` writes byte pairs at offsets
0, 9, 14, 19, 24 of the 36-byte buffer and the four dashes go at offsets
8, 13, 18, 23; since the five encoded slices `u[:4] u[4:6] u[6:8] u[8:10]
u[10:]` produce exactly 8, 4, 4, 4 and 12 chars, the filled buffer is this
concatenation. -/
def format (u : List Nat) : List Nat :=
  hexEncode (u.take 4) ++ dash ::
    (hexEncode ((u.drop 4).take 2) ++ dash ::
      (hexEncode ((u.drop 6).take 2) ++ dash ::
        (hexEncode ((u.drop 8).take 2) ++ dash ::
          hexEncode (u.drop 10))))

/-- Go `Format`: the `[36]byte` array result, as a list. -/
def Format (u : List Nat) : List Nat := format u

/-- Go `Bytes`: `b := u.Format(); return b[:]`. -/
def Bytes (u : List Nat) : List Nat := Format u

/-- Go `String`: `string(u.Bytes())`; a Go string is its byte sequence. -/
def String (u : List Nat) : List Nat := Bytes u

/-- Go `MarshalBinary`: returns the raw 16 bytes, never an error. -/
def MarshalBinary (u : List Nat) : List Nat × Option Err := (u, none)

/-- Go `MarshalText`: `return u.Bytes(), nil`. -/
def MarshalText (u : List Nat) : List Nat × Option Err := (Bytes u, none)

/-- Go `Value` (sql driver Valuer): `return u.Bytes(), nil`. -/
def Value (u : List Nat) : List Nat × Option Err := (Bytes u, none)

/-- Go `MarshalJSON`: `b[0] = '"'` (ASCII 34), `u.format(b[1:])`, `b[37] = '"'`. -/
def MarshalJSON (u : List Nat) : List Nat × Option Err :=
  (34 :: (format u ++ [34]), none)

/-- The five hex group lengths `uuidHexLengths = [5]int{8, 4, 4, 4, 12}`. -/
def uuidHexLengths : List Nat := [8, 4, 4, 4, 12]

/-- The loop of `parseFormatted` over `uuidHexLengths`: at each group
`hex.Decode(u[iu:], b[ib:ib+cnt])`, then for the first four groups
(`idx < 4`, i.e. the remaining-lengths list is nonempty) require
`b[ib+cnt] == dash`; the cursors advance by `n = cnt/2` and `cnt+1`.
On a decode or dash failure Go returns the partially written array together
with `ErrInvalidUUID`; the value half of that pair is never consumed by any
caller, so the error carries no payload here. -/
def parseFormattedGo (b : List Nat) : List Nat → Nat → Nat → List Nat →
    Except Err (List Nat)
  | [], _, _, u => .ok u
  | cnt :: lens, iu, ib, u =>
    match hexDecode ((b.drop ib).take cnt) with
    | none => .error Err.invalidUUID
    | some ds =>
      if lens ≠ [] ∧ b.getD (ib + cnt) 0 ≠ dash then .error Err.invalidUUID
      else parseFormattedGo b lens (iu + cnt / 2) (ib + cnt + 1) (listWriteAt u iu ds)

/-- Go `parseFormatted`: run the group loop from `iu = ib = 0` on `var u UUID`. -/
def parseFormatted (b : List Nat) : Except Err (List Nat) :=
  parseFormattedGo b uuidHexLengths 0 0 zeroUUID

/-- Go `Parse`: switch on the input length.  16: `copy(u[:], b)` (the 16 bytes
are taken verbatim); 32: `hex.Decode(u[:], b)` fills the array exactly;
36: `parseFormatted`; anything else: `ErrInvalidUUID`. -/
def Parse (b : List Nat) : Except Err (List Nat) :=
  if b.length = 16 then .ok b
  else if b.length = 32 then
    match hexDecode b with
    | none => .error Err.invalidUUID
    | some ds => .ok ds
  else if b.length = 36 then parseFormatted b
  else .error Err.invalidUUID

/-- Go `ParseString`: `Parse([]byte(s))`; a Go string is its byte sequence. -/
def ParseString (s : List Nat) : Except Err (List Nat) := Parse s

/-- Go `UnmarshalBinary`: reject any length other than 16 without touching `u`;
on success `copy(u[:], data)` replaces all 16 stored bytes with `data`.
The method on `*UUID` is modelled as old state → input → (new state, error). -/
def UnmarshalBinary (u data : List Nat) : List Nat × Option Err :=
  if data.length ≠ 16 then (u, some Err.invalidUUID) else (data, none)

/-- Go `UnmarshalJSON`: require length 38 and a double quote (ASCII 34) at both
ends, then `Parse(b[1:37])`; `*u` is assigned only after a successful parse. -/
def UnmarshalJSON (u b : List Nat) : List Nat × Option Err :=
  if b.length ≠ 38 ∨ b.getD 0 0 ≠ 34 ∨ b.getD 37 0 ≠ 34 then
    (u, some Err.invalidUUID)
  else
    match Parse ((b.drop 1).take 36) with
    | .error e => (u, some e)
    | .ok id => (id, none)

/-- Go `UnmarshalText`: `Parse(text)`; `*u` is assigned only on success. -/
def UnmarshalText (u text : List Nat) : List Nat × Option Err :=
  match Parse text with
  | .error e => (u, some e)
  | .ok id => (id, none)

/-- The dynamic argument of the sql `Scan` method: a byte slice, a string, or
any other value. -/
inductive ScanSrc where
  | bytes (b : List Nat)
  | str (s : List Nat)
  | other
deriving DecidableEq

/-- Go `Scan`: dispatch on the dynamic type of `src`; `*u` is assigned only when
the selected parse succeeded. -/
def Scan (u : List Nat) (src : ScanSrc) : List Nat × Option Err :=
  match src with
  | .bytes v =>
    match Parse v with
    | .error e => (u, some e)
    | .ok id => (id, none)
  | .str v =>
    match ParseString v with
    | .error e => (u, some e)
    | .ok id => (id, none)
  | .other => (u, some Err.invalidUUID)

/-- Outcome of `Must`: Go either panics with the error or returns the UUID. -/
inductive MustResult where
  | panicked (e : Err)
  | value (u : List Nat)
deriving DecidableEq

/-- Go `Must(u, err)`: panic iff `err` is non-nil, else return `u` unchanged. -/
def Must (u : List Nat) (err : Option Err) : MustResult :=
  match err with
  | some e => .panicked e
  | none => .value u

/-! ## Panic-explicit model of `Parse` (for the no-out-of-bounds claim)

Go slicing `b[i:j]` panics when `i > j` or `j > len(b)`, and indexing `b[k]`
panics when `k ≥ len(b)`; `hex.Decode(dst, src)` writes `len(src)/2` bytes
into `dst` and would index out of bounds if `dst` were shorter.  `none`
models such a panic; `some r` a normal return. -/

/-- Checked `b[i:j]`. -/
def goSlice (b : List Nat) (i j : Nat) : Option (List Nat) :=
  if i ≤ j ∧ j ≤ b.length then some ((b.drop i).take (j - i)) else none

/-- Checked `b[k]`. -/
def goIndex (b : List Nat) (k : Nat) : Option Nat := b.get? k

/-- The `parseFormatted` loop with every slice/index access checked. -/
def parseLoopC (b : List Nat) : List Nat → Nat → Nat → List Nat →
    Option (Except Err (List Nat))
  | [], _, _, u => some (.ok u)
  | cnt :: lens, iu, ib, u =>
    match goSlice b ib (ib + cnt) with
    | none => none
    | some seg =>
      if 16 - iu < cnt / 2 then none
      else
        match hexDecode seg with
        | none => some (.error Err.invalidUUID)
        | some ds =>
          if lens ≠ [] then
            match goIndex b (ib + cnt) with
            | none => none
            | some c =>
              if c ≠ dash then some (.error Err.invalidUUID)
              else parseLoopC b lens (iu + cnt / 2) (ib + cnt + 1) (listWriteAt u iu ds)
          else parseLoopC b lens (iu + cnt / 2) (ib + cnt + 1) (listWriteAt u iu ds)

/-- Model of `Parse` with the length-36 arm running the checked loop (the 16- and
32-byte arms only use `len` and whole-slice copies/decodes that fit, which
cannot panic). -/
def ParseChecked (b : List Nat) : Option (Except Err (List Nat)) :=
  if b.length = 16 then some (.ok b)
  else if b.length = 32 then
    match hexDecode b with
    | none => some (.error Err.invalidUUID)
    | some ds => some (.ok ds)
  else if b.length = 36 then parseLoopC b uuidHexLengths 0 0 zeroUUID
  else some (.error Err.invalidUUID)

/-! ## Spec-side predicates (transcribed from the claims, to be compared
with the code-derived `Parse`) -/

/-- The claim's acceptance condition for a 36-byte input: hyphens at exactly
offsets 8, 13, 18, 23 and valid hex digits everywhere else (the five slices
0-7, 9-12, 14-17, 19-22, 24-35 are everything other than those offsets). -/
def validFormatted (b : List Nat) : Bool :=
  b.length == 36 &&
  (b.take 8).all isHexChar && ((b.drop 9).take 4).all isHexChar &&
  ((b.drop 14).take 4).all isHexChar && ((b.drop 19).take 4).all isHexChar &&
  ((b.drop 24).take 12).all isHexChar &&
  b.getD 8 0 == dash && b.getD 13 0 == dash &&
  b.getD 18 0 == dash && b.getD 23 0 == dash

/-- The claim's acceptance condition for `Parse`: length 16 with any content,
or length 32 all-hex, or a valid 36-byte dashed rendering. -/
def validParseInput (b : List Nat) : Bool :=
  b.length == 16 || (b.length == 32 && b.all isHexChar) || validFormatted b

/-- Holds (`true`) exactly on `.ok` results. -/
def isOkE (r : Except Err (List Nat)) : Bool :=
  match r with
  | .ok _ => true
  | .error _ => false

/-- The claim's positional output map for `Format`: source byte `i` lands at
output offset `2*i` shifted past the hyphens already emitted. -/
def outPos (i : Nat) : Nat :=
  2 * i + (if i < 4 then 0 else if i < 6 then 1 else if i < 8 then 2
    else if i < 10 then 3 else 4)

/-- Lowercase-hex ASCII byte: a digit `0`-`9` or letter `a`-`f`. -/
def isLowerHexAscii (c : Nat) : Prop :=
  (48 ≤ c ∧ c ≤ 57) ∨ (97 ≤ c ∧ c ≤ 102)

/-! ## Helper recursions for reasoning about the parse loop -/

/-- The parse loop re-expressed on the suffix `b.drop ib` (proved equal to
`parseFormattedGo` in `parseFormattedGo_eq_parseRel`). -/
def parseRel : List Nat → List Nat → Nat → List Nat → Except Err (List Nat)
  | _, [], _, u => .ok u
  | rest, cnt :: lens, iu, u =>
    match hexDecode (rest.take cnt) with
    | none => .error Err.invalidUUID
    | some ds =>
      if lens ≠ [] ∧ rest.getD cnt 0 ≠ dash then .error Err.invalidUUID
      else parseRel (rest.drop (cnt + 1)) lens (iu + cnt / 2) (listWriteAt u iu ds)

/-- Dash-separated concatenation of hex-encoded groups (the shape of a
canonical rendering, split the way the parse loop consumes it). -/
def encodeGroups : List (List Nat) → List Nat
  | [] => []
  | [g] => hexEncode g
  | g :: gs => hexEncode g ++ dash :: encodeGroups gs

/-- Sequential `listWriteAt` writes of a list of groups. -/
def writeChain (u : List Nat) (iu : Nat) : List (List Nat) → List Nat
  | [] => u
  | g :: gs => writeChain (listWriteAt u iu g) (iu + g.length) gs

theorem parseRel_nil (rest : List Nat) (iu : Nat) (u : List Nat) :
    parseRel rest [] iu u = .ok u := rfl

theorem parseRel_cons (rest : List Nat) (cnt : Nat) (lens : List Nat) (iu : Nat)
    (u : List Nat) :
    parseRel rest (cnt :: lens) iu u =
      match hexDecode (rest.take cnt) with
      | none => .error Err.invalidUUID
      | some ds =>
        if lens ≠ [] ∧ rest.getD cnt 0 ≠ dash then .error Err.invalidUUID
        else parseRel (rest.drop (cnt + 1)) lens (iu + cnt / 2) (listWriteAt u iu ds) := rfl

theorem getD_drop (l : List Nat) (n m d : Nat) :
    (l.drop n).getD m d = l.getD (n + m) d := by
  induction n generalizing l with
  | zero => simp
  | succ n ih =>
    cases l with
    | nil => simp
    | cons a t =>
      have : n + 1 + m = (n + m) + 1 := by omega
      simp [this, ih]

theorem parseFormattedGo_eq_parseRel (b : List Nat) :
    ∀ lens iu ib u, parseFormattedGo b lens iu ib u = parseRel (b.drop ib) lens iu u := by
  intro lens
  induction lens with
  | nil => intro iu ib u; rfl
  | cons cnt lens ih =>
    intro iu ib u
    simp only [parseFormattedGo, parseRel, getD_drop, List.drop_drop]
    have hadd : ib + cnt + 1 = ib + (cnt + 1) := by omega
    cases hexDecode ((b.drop ib).take cnt) with
    | none => rfl
    | some ds =>
      simp only []
      split
      · rfl
      · rw [ih, hadd]


theorem parseRel_encoded :
    ∀ (gs : List (List Nat)) (iu : Nat) (u : List Nat),
      (∀ g ∈ gs, ∀ x ∈ g, x < 256) →
      parseRel (encodeGroups gs) (gs.map fun g => 2 * g.length) iu u =
        .ok (writeChain u iu gs) := by
  intro gs
  induction gs with
  | nil => intro iu u _; rfl
  | cons g gs ih =>
    intro iu u h
    have hg : ∀ x ∈ g, x < 256 := h g (by simp)
    have hhalf : 2 * g.length / 2 = g.length := by omega
    cases gs with
    | nil =>
      simp only [encodeGroups, List.map, parseRel]
      rw [List.take_of_length_le (by rw [hexEncode_length]), hexDecode_hexEncode g hg]
      simp [writeChain, hhalf, parseRel]
    | cons g2 gs2 =>
      have hmap : (g :: g2 :: gs2).map (fun g => 2 * g.length) =
          2 * g.length :: (g2 :: gs2).map (fun g => 2 * g.length) := rfl
      have henc : encodeGroups (g :: g2 :: gs2) =
          hexEncode g ++ dash :: encodeGroups (g2 :: gs2) := rfl
      have hdec : hexDecode ((hexEncode g ++ dash :: encodeGroups (g2 :: gs2)).take
          (2 * g.length)) = some g := by
        rw [List.take_left' (by rw [hexEncode_length]), hexDecode_hexEncode g hg]
      have hdash : (hexEncode g ++ dash :: encodeGroups (g2 :: gs2)).getD
          (2 * g.length) 0 = dash := by
        rw [List.getD_eq_getElem?_getD,
          List.getElem?_append_right (by rw [hexEncode_length])]
        simp [hexEncode_length]
      have hdrop : (hexEncode g ++ dash :: encodeGroups (g2 :: gs2)).drop
          (2 * g.length + 1) = encodeGroups (g2 :: gs2) := by
        have hass : hexEncode g ++ dash :: encodeGroups (g2 :: gs2) =
            (hexEncode g ++ [dash]) ++ encodeGroups (g2 :: gs2) := by simp
        rw [hass, List.drop_left' (by simp [hexEncode_length])]
      rw [hmap, henc, parseRel_cons, hdec]
      simp only []
      rw [hdash, if_neg (by simp), hdrop, hhalf,
        ih (iu + g.length) (listWriteAt u iu g) (fun g' hg' => h g' (by simp [hg']))]
      rfl

theorem exists_cons_of_length_succ {α : Type} (u : List α) (n : Nat)
    (h : u.length = n + 1) : ∃ x t, t.length = n ∧ u = x :: t := by
  cases u with
  | nil => simp at h
  | cons x t => exact ⟨x, t, by simpa using h, rfl⟩

/-- Destructure a 16-byte list into its entries. -/
theorem uuid_destruct (u : List Nat) (h : u.length = 16) :
    ∃ b0 b1 b2 b3 b4 b5 b6 b7 b8 b9 b10 b11 b12 b13 b14 b15 : Nat,
      u = [b0, b1, b2, b3, b4, b5, b6, b7, b8, b9, b10, b11, b12, b13, b14, b15] := by
  rcases u with _ | ⟨b0, u⟩
  · simp only [List.length_nil, List.length_cons] at h; omega
  rcases u with _ | ⟨b1, u⟩
  · simp only [List.length_nil, List.length_cons] at h; omega
  rcases u with _ | ⟨b2, u⟩
  · simp only [List.length_nil, List.length_cons] at h; omega
  rcases u with _ | ⟨b3, u⟩
  · simp only [List.length_nil, List.length_cons] at h; omega
  rcases u with _ | ⟨b4, u⟩
  · simp only [List.length_nil, List.length_cons] at h; omega
  rcases u with _ | ⟨b5, u⟩
  · simp only [List.length_nil, List.length_cons] at h; omega
  rcases u with _ | ⟨b6, u⟩
  · simp only [List.length_nil, List.length_cons] at h; omega
  rcases u with _ | ⟨b7, u⟩
  · simp only [List.length_nil, List.length_cons] at h; omega
  rcases u with _ | ⟨b8, u⟩
  · simp only [List.length_nil, List.length_cons] at h; omega
  rcases u with _ | ⟨b9, u⟩
  · simp only [List.length_nil, List.length_cons] at h; omega
  rcases u with _ | ⟨b10, u⟩
  · simp only [List.length_nil, List.length_cons] at h; omega
  rcases u with _ | ⟨b11, u⟩
  · simp only [List.length_nil, List.length_cons] at h; omega
  rcases u with _ | ⟨b12, u⟩
  · simp only [List.length_nil, List.length_cons] at h; omega
  rcases u with _ | ⟨b13, u⟩
  · simp only [List.length_nil, List.length_cons] at h; omega
  rcases u with _ | ⟨b14, u⟩
  · simp only [List.length_nil, List.length_cons] at h; omega
  rcases u with _ | ⟨b15, u⟩
  · simp only [List.length_nil, List.length_cons] at h; omega
  rcases u with _ | ⟨b16, u⟩
  · exact ⟨b0, b1, b2, b3, b4, b5, b6, b7, b8, b9, b10, b11, b12, b13, b14, b15, rfl⟩
  · simp only [List.length_cons] at h; omega

theorem format_length (u : List Nat) (h : u.length = 16) : (format u).length = 36 := by
  simp [format, hexEncode_length, h]

set_option maxHeartbeats 1000000 in
/-- Canonical-text round trip: `Parse (format u) = ok u` for every 16-byte `u`. -/
theorem parse_format_ok (u : List Nat) (h16 : u.length = 16)
    (hb : ∀ x ∈ u, x < 256) : Parse (format u) = .ok u := by
  obtain ⟨b0, b1, b2, b3, b4, b5, b6, b7, b8, b9, b10, b11, b12, b13, b14, b15, rfl⟩ :=
    uuid_destruct u h16
  have hflen := format_length _ h16
  rw [Parse, if_neg (by omega), if_neg (by omega), if_pos hflen]
  rw [parseFormatted, parseFormattedGo_eq_parseRel, List.drop_zero]
  have hgs : ∀ g ∈ [[b0, b1, b2, b3], [b4, b5], [b6, b7], [b8, b9],
      [b10, b11, b12, b13, b14, b15]], ∀ x ∈ g, x < 256 := by
    intro g hg x hx
    apply hb
    fin_cases hg <;> simp_all <;> tauto
  have e3 : writeChain zeroUUID 0 [[b0, b1, b2, b3], [b4, b5], [b6, b7], [b8, b9],
      [b10, b11, b12, b13, b14, b15]] =
      [b0, b1, b2, b3, b4, b5, b6, b7, b8, b9, b10, b11, b12, b13, b14, b15] := by
    simp [writeChain, listWriteAt, listCopy, zeroUUID]
  have e1 : format [b0, b1, b2, b3, b4, b5, b6, b7, b8, b9, b10, b11, b12, b13, b14, b15] =
      encodeGroups [[b0, b1, b2, b3], [b4, b5], [b6, b7], [b8, b9],
        [b10, b11, b12, b13, b14, b15]] := by
    simp [format, encodeGroups]
  have e2 : uuidHexLengths = ([[b0, b1, b2, b3], [b4, b5], [b6, b7], [b8, b9],
      [b10, b11, b12, b13, b14, b15]].map fun g => 2 * g.length) := by
    simp [uuidHexLengths]
  rw [e1, e2, parseRel_encoded _ 0 zeroUUID hgs, e3]

set_option maxHeartbeats 1000000 in
theorem parseFormatted_isOk (b : List Nat) (hb : b.length = 36) :
    isOkE (parseFormatted b) = validFormatted b := by
  have hu : uuidHexLengths = 8 :: [4, 4, 4, 12] := rfl
  rw [parseFormatted, parseFormattedGo_eq_parseRel, List.drop_zero, hu, parseRel_cons]
  have hev0 : (b.take 8).length % 2 = 0 := by rw [List.length_take]; omega
  cases hd0 : hexDecode (b.take 8) with
  | none =>
    have h0 : (b.take 8).all isHexChar = false := by
      have he := hexDecode_isSome (b.take 8) hev0
      rw [hd0] at he; simpa using he.symm
    simp [isOkE, validFormatted, h0]
  | some ds0 =>
    have h0 : (b.take 8).all isHexChar = true := by
      have he := hexDecode_isSome (b.take 8) hev0
      rw [hd0] at he; simpa using he.symm
    simp only []
    by_cases hda0 : b.getD 8 0 = dash
    case neg =>
      rw [if_pos ⟨by simp, hda0⟩]
      have hda0n : ¬b[8]?.getD 0 = dash := by simpa using hda0
      simp [isOkE, validFormatted, hda0n]
    case pos =>
      have hda0p : b[8]?.getD 0 = dash := by simpa using hda0
      rw [if_neg (fun hcon => hcon.2 hda0), show (8 : Nat) + 1 = 9 from rfl, parseRel_cons]
      have hev1 : ((b.drop 9).take 4).length % 2 = 0 := by
        rw [List.length_take, List.length_drop]; omega
      cases hd1 : hexDecode ((b.drop 9).take 4) with
      | none =>
        have h1 : ((b.drop 9).take 4).all isHexChar = false := by
          have he := hexDecode_isSome ((b.drop 9).take 4) hev1
          rw [hd1] at he; simpa using he.symm
        simp [isOkE, validFormatted, h1]
      | some ds1 =>
        have h1 : ((b.drop 9).take 4).all isHexChar = true := by
          have he := hexDecode_isSome ((b.drop 9).take 4) hev1
          rw [hd1] at he; simpa using he.symm
        simp only []
        rw [getD_drop, show (9 : Nat) + 4 = 13 from rfl]
        by_cases hda1 : b.getD 13 0 = dash
        case neg =>
          rw [if_pos ⟨by simp, hda1⟩]
          have hda1n : ¬b[13]?.getD 0 = dash := by simpa using hda1
          simp [isOkE, validFormatted, hda1n]
        case pos =>
          have hda1p : b[13]?.getD 0 = dash := by simpa using hda1
          rw [if_neg (fun hcon => hcon.2 hda1), List.drop_drop,
            show (9 : Nat) + (4 + 1) = 14 from rfl, parseRel_cons]
          have hev2 : ((b.drop 14).take 4).length % 2 = 0 := by
            rw [List.length_take, List.length_drop]; omega
          cases hd2 : hexDecode ((b.drop 14).take 4) with
          | none =>
            have h2 : ((b.drop 14).take 4).all isHexChar = false := by
              have he := hexDecode_isSome ((b.drop 14).take 4) hev2
              rw [hd2] at he; simpa using he.symm
            simp [isOkE, validFormatted, h2]
          | some ds2 =>
            have h2 : ((b.drop 14).take 4).all isHexChar = true := by
              have he := hexDecode_isSome ((b.drop 14).take 4) hev2
              rw [hd2] at he; simpa using he.symm
            simp only []
            rw [getD_drop, show (14 : Nat) + 4 = 18 from rfl]
            by_cases hda2 : b.getD 18 0 = dash
            case neg =>
              rw [if_pos ⟨by simp, hda2⟩]
              have hda2n : ¬b[18]?.getD 0 = dash := by simpa using hda2
              simp [isOkE, validFormatted, hda2n]
            case pos =>
              have hda2p : b[18]?.getD 0 = dash := by simpa using hda2
              rw [if_neg (fun hcon => hcon.2 hda2), List.drop_drop,
                show (14 : Nat) + (4 + 1) = 19 from rfl, parseRel_cons]
              have hev3 : ((b.drop 19).take 4).length % 2 = 0 := by
                rw [List.length_take, List.length_drop]; omega
              cases hd3 : hexDecode ((b.drop 19).take 4) with
              | none =>
                have h3 : ((b.drop 19).take 4).all isHexChar = false := by
                  have he := hexDecode_isSome ((b.drop 19).take 4) hev3
                  rw [hd3] at he; simpa using he.symm
                simp [isOkE, validFormatted, h3]
              | some ds3 =>
                have h3 : ((b.drop 19).take 4).all isHexChar = true := by
                  have he := hexDecode_isSome ((b.drop 19).take 4) hev3
                  rw [hd3] at he; simpa using he.symm
                simp only []
                rw [getD_drop, show (19 : Nat) + 4 = 23 from rfl]
                by_cases hda3 : b.getD 23 0 = dash
                case neg =>
                  rw [if_pos ⟨by simp, hda3⟩]
                  have hda3n : ¬b[23]?.getD 0 = dash := by simpa using hda3
                  simp [isOkE, validFormatted, hda3n]
                case pos =>
                  have hda3p : b[23]?.getD 0 = dash := by simpa using hda3
                  rw [if_neg (fun hcon => hcon.2 hda3), List.drop_drop,
                    show (19 : Nat) + (4 + 1) = 24 from rfl, parseRel_cons]
                  have hev4 : ((b.drop 24).take 12).length % 2 = 0 := by
                    rw [List.length_take, List.length_drop]; omega
                  cases hd4 : hexDecode ((b.drop 24).take 12) with
                  | none =>
                    have h4 : ((b.drop 24).take 12).all isHexChar = false := by
                      have he := hexDecode_isSome ((b.drop 24).take 12) hev4
                      rw [hd4] at he; simpa using he.symm
                    simp [isOkE, validFormatted, h4]
                  | some ds4 =>
                    have h4 : ((b.drop 24).take 12).all isHexChar = true := by
                      have he := hexDecode_isSome ((b.drop 24).take 12) hev4
                      rw [hd4] at he; simpa using he.symm
                    simp only []
                    rw [if_neg (by simp), parseRel_nil]
                    have hg0 : b[8] = dash := by
                      rwa [List.getElem?_eq_getElem (by omega), Option.getD_some] at hda0p
                    have hg1 : b[13] = dash := by
                      rwa [List.getElem?_eq_getElem (by omega), Option.getD_some] at hda1p
                    have hg2 : b[18] = dash := by
                      rwa [List.getElem?_eq_getElem (by omega), Option.getD_some] at hda2p
                    have hg3 : b[23] = dash := by
                      rwa [List.getElem?_eq_getElem (by omega), Option.getD_some] at hda3p
                    simp [isOkE, validFormatted, hb, h0, h1, h2, h3, h4,
                      hg0, hg1, hg2, hg3]

theorem parse_raw_ok (u : List Nat) (h16 : u.length = 16) : Parse u = .ok u := by
  rw [Parse, if_pos h16]

theorem parse_hex32_ok (u : List Nat) (h16 : u.length = 16)
    (hb : ∀ x ∈ u, x < 256) : Parse (hexEncode u) = .ok u := by
  have hlen : (hexEncode u).length = 32 := by rw [hexEncode_length, h16]
  rw [Parse, if_neg (by omega), if_pos hlen, hexDecode_hexEncode u hb]

/-- The embedded `Parse` succeeds exactly on the three accepted shapes. -/
theorem parse_isOk (b : List Nat) : isOkE (Parse b) = validParseInput b := by
  by_cases h16 : b.length = 16
  · rw [Parse, if_pos h16]
    simp [isOkE, validParseInput, h16]
  · by_cases h32 : b.length = 32
    · rw [Parse, if_neg h16, if_pos h32]
      have he := hexDecode_isSome b (by omega)
      cases hd : hexDecode b with
      | none =>
        rw [hd] at he
        simp only [Option.isSome_none] at he
        simp [isOkE, validParseInput, validFormatted, h16, h32, ← he]
      | some ds =>
        rw [hd] at he
        simp only [Option.isSome_some] at he
        simp [isOkE, validParseInput, h16, h32, ← he]
    · by_cases h36 : b.length = 36
      · rw [Parse, if_neg h16, if_neg h32, if_pos h36, parseFormatted_isOk b h36]
        simp [validParseInput, h16, h32]
      · rw [Parse, if_neg h16, if_neg h32, if_neg h36]
        simp [isOkE, validParseInput, validFormatted, h16, h32, h36]

/-- Every parse failure carries the single uniform error value. -/
theorem parse_error_unique (b : List Nat) (e : Err) (h : Parse b = .error e) :
    e = Err.invalidUUID := by
  cases e
  rfl

/-- C1: for every 16-byte identifier (all byte patterns), parsing any of its
three renderings returns it exactly: the 36-byte canonical text `format u`,
the 32-char no-dash lowercase hex rendering `hexEncode u`, and the raw
16 bytes emitted by the binary marshaller. -/
theorem c1_parse_roundtrip (u : List Nat) (h16 : u.length = 16)
    (hb : ∀ x ∈ u, x < 256) :
    Parse (format u) = .ok u ∧ Parse (hexEncode u) = .ok u ∧
      Parse ((MarshalBinary u).1) = .ok u :=
  ⟨parse_format_ok u h16 hb, parse_hex32_ok u h16 hb, parse_raw_ok u h16⟩

/-- Witness for C1 at the spec's example identifier
9e754ef6-8dd9-4903-af43-7aea99bfb1fe. -/
theorem c1_parse_roundtrip_witness :
    ([158, 117, 78, 246, 141, 217, 73, 3, 175, 67, 122, 234, 153, 191, 177, 254] :
        List Nat).length = 16 ∧
    (∀ x ∈ ([158, 117, 78, 246, 141, 217, 73, 3, 175, 67, 122, 234, 153, 191, 177,
        254] : List Nat), x < 256) ∧
    (Parse (format [158, 117, 78, 246, 141, 217, 73, 3, 175, 67, 122, 234, 153,
        191, 177, 254]) =
      .ok [158, 117, 78, 246, 141, 217, 73, 3, 175, 67, 122, 234, 153, 191, 177, 254] ∧
    Parse (hexEncode [158, 117, 78, 246, 141, 217, 73, 3, 175, 67, 122, 234, 153,
        191, 177, 254]) =
      .ok [158, 117, 78, 246, 141, 217, 73, 3, 175, 67, 122, 234, 153, 191, 177, 254] ∧
    Parse ((MarshalBinary [158, 117, 78, 246, 141, 217, 73, 3, 175, 67, 122, 234,
        153, 191, 177, 254]).1) =
      .ok [158, 117, 78, 246, 141, 217, 73, 3, 175, 67, 122, 234, 153, 191, 177, 254]) :=
  ⟨by decide, by decide,
    c1_parse_roundtrip [158, 117, 78, 246, 141, 217, 73, 3, 175, 67, 122, 234, 153,
      191, 177, 254] (by decide) (by decide)⟩

/-- C3: `Parse` succeeds exactly when the input has length 16 (any content),
or length 32 with every char a hex digit, or length 36 with hyphens at
exactly offsets 8, 13, 18, 23 and hex digits everywhere else; any other
input fails, and every failure is the single invalid-identifier error. -/
theorem c3_parse_characterization (b : List Nat) :
    isOkE (Parse b) = validParseInput b ∧
      (∀ e : Err, Parse b = .error e → e = Err.invalidUUID) :=
  ⟨parse_isOk b, fun e h => parse_error_unique b e h⟩

/-- Witness for C3 at the rejected input "bad" (bytes 98 97 100). -/
theorem c3_parse_characterization_witness :
    Parse [98, 97, 100] = .error Err.invalidUUID ∧
      (isOkE (Parse [98, 97, 100]) = validParseInput [98, 97, 100] ∧
        Err.invalidUUID = Err.invalidUUID) :=
  ⟨rfl,
    (c3_parse_characterization [98, 97, 100]).1,
    (c3_parse_characterization [98, 97, 100]).2 Err.invalidUUID rfl⟩

theorem hexDigit_lower (n : Nat) (h : n < 16) : isLowerHexAscii (hexDigit n) := by
  unfold isLowerHexAscii hexDigit
  split_ifs with h1
  · left; omega
  · right; omega

/-- C2: `Format` is total (a plain function on all byte patterns) and
produces exactly 36 bytes: the four ASCII hyphens at offsets 8, 13, 18, 23,
lowercase hex digits everywhere else, and source byte `i` contributes its two
lowercase hex digits at offsets `outPos i` and `outPos i + 1` (the positional
map skipping the hyphens). -/
theorem c2_format_shape (u : List Nat) (h16 : u.length = 16)
    (hb : ∀ x ∈ u, x < 256) :
    (Format u).length = 36 ∧
    ((Format u).getD 8 0 = dash ∧ (Format u).getD 13 0 = dash ∧
      (Format u).getD 18 0 = dash ∧ (Format u).getD 23 0 = dash) ∧
    (∀ i, i < 36 → i ≠ 8 → i ≠ 13 → i ≠ 18 → i ≠ 23 →
      isLowerHexAscii ((Format u).getD i 0)) ∧
    (∀ i, i < 16 → (Format u).getD (outPos i) 0 = hexDigit (u.getD i 0 / 16) ∧
      (Format u).getD (outPos i + 1) 0 = hexDigit (u.getD i 0 % 16)) := by
  obtain ⟨b0, b1, b2, b3, b4, b5, b6, b7, b8, b9, b10, b11, b12, b13, b14, b15, rfl⟩ := uuid_destruct u h16
  have hb0 : b0 < 256 := hb b0 (by simp)
  have hb1 : b1 < 256 := hb b1 (by simp)
  have hb2 : b2 < 256 := hb b2 (by simp)
  have hb3 : b3 < 256 := hb b3 (by simp)
  have hb4 : b4 < 256 := hb b4 (by simp)
  have hb5 : b5 < 256 := hb b5 (by simp)
  have hb6 : b6 < 256 := hb b6 (by simp)
  have hb7 : b7 < 256 := hb b7 (by simp)
  have hb8 : b8 < 256 := hb b8 (by simp)
  have hb9 : b9 < 256 := hb b9 (by simp)
  have hb10 : b10 < 256 := hb b10 (by simp)
  have hb11 : b11 < 256 := hb b11 (by simp)
  have hb12 : b12 < 256 := hb b12 (by simp)
  have hb13 : b13 < 256 := hb b13 (by simp)
  have hb14 : b14 < 256 := hb b14 (by simp)
  have hb15 : b15 < 256 := hb b15 (by simp)
  have hfmt : Format [b0, b1, b2, b3, b4, b5, b6, b7, b8, b9, b10, b11, b12, b13, b14, b15] =
    [hexDigit (b0 / 16),
      hexDigit (b0 % 16),
      hexDigit (b1 / 16),
      hexDigit (b1 % 16),
      hexDigit (b2 / 16),
      hexDigit (b2 % 16),
      hexDigit (b3 / 16),
      hexDigit (b3 % 16),
      dash,
      hexDigit (b4 / 16),
      hexDigit (b4 % 16),
      hexDigit (b5 / 16),
      hexDigit (b5 % 16),
      dash,
      hexDigit (b6 / 16),
      hexDigit (b6 % 16),
      hexDigit (b7 / 16),
      hexDigit (b7 % 16),
      dash,
      hexDigit (b8 / 16),
      hexDigit (b8 % 16),
      hexDigit (b9 / 16),
      hexDigit (b9 % 16),
      dash,
      hexDigit (b10 / 16),
      hexDigit (b10 % 16),
      hexDigit (b11 / 16),
      hexDigit (b11 % 16),
      hexDigit (b12 / 16),
      hexDigit (b12 % 16),
      hexDigit (b13 / 16),
      hexDigit (b13 % 16),
      hexDigit (b14 / 16),
      hexDigit (b14 % 16),
      hexDigit (b15 / 16),
      hexDigit (b15 % 16)] := rfl
  rw [hfmt]
  refine ⟨rfl, ⟨rfl, rfl, rfl, rfl⟩, ?_, ?_⟩
  · intro i hi i8 i13 i18 i23
    interval_cases i <;> first | omega | exact hexDigit_lower _ (by omega)
  · intro i hi
    interval_cases i <;> exact ⟨rfl, rfl⟩

/-- Witness for C2 at the spec's example identifier. -/
theorem c2_format_shape_witness :
    ([158, 117, 78, 246, 141, 217, 73, 3, 175, 67, 122, 234, 153, 191, 177, 254] :
        List Nat).length = 16 ∧
    (∀ x ∈ ([158, 117, 78, 246, 141, 217, 73, 3, 175, 67, 122, 234, 153, 191, 177,
        254] : List Nat), x < 256) ∧
    (Format [158, 117, 78, 246, 141, 217, 73, 3, 175, 67, 122, 234, 153, 191,
        177, 254]).length = 36 :=
  ⟨by decide, by decide,
    (c2_format_shape [158, 117, 78, 246, 141, 217, 73, 3, 175, 67, 122, 234, 153,
      191, 177, 254] (by decide) (by decide)).1⟩

/-! ## Bitwise bridges -/

theorem shiftLeft_lor_eq_add (a b k : Nat) (hb : b < 2 ^ k) :
    (a <<< k) ||| b = a * 2 ^ k + b := by
  apply Nat.eq_of_testBit_eq
  intro i
  rw [Nat.testBit_lor, Nat.testBit_shiftLeft, Nat.mul_comm a (2 ^ k),
    Nat.testBit_mul_pow_two_add a hb i]
  rcases Nat.lt_or_ge i k with h | h
  · have hge : decide (i ≥ k) = false := by simp; omega
    simp [hge, h]
  · have hbi : b.testBit i = false :=
      Nat.testBit_lt_two_pow (Nat.lt_of_lt_of_le hb (Nat.pow_le_pow_right (by omega) h))
    have hge : decide (i ≥ k) = true := by simp [h]
    simp [hge, hbi, Nat.not_lt.mpr h]

theorem setVersion_byte (x v : Nat) (hv : v < 16) :
    (x &&& 0x0f) ||| ((v <<< 4) % 256) = x % 16 + v * 16 := by
  have h1 : x &&& 0x0f = x % 16 := by
    have h := Nat.and_pow_two_sub_one_eq_mod x 4
    norm_num at h
    exact h
  have h2 : (v <<< 4) % 256 = v <<< 4 :=
    Nat.mod_eq_of_lt (by rw [Nat.shiftLeft_eq]; norm_num; omega)
  rw [h1, h2, Nat.lor_comm, shiftLeft_lor_eq_add v (x % 16) 4 (by omega)]
  have h3 : (2 : Nat) ^ 4 = 16 := by norm_num
  rw [h3]
  omega

theorem setVariant_byte (x : Nat) : (x &&& 0x3f) ||| 0x80 = x % 64 + 128 := by
  have h1 : x &&& 0x3f = x % 64 := by
    have h := Nat.and_pow_two_sub_one_eq_mod x 6
    norm_num at h
    exact h
  have h2 : (0x80 : Nat) = 2 <<< 6 := by decide
  rw [h1, h2, Nat.lor_comm, shiftLeft_lor_eq_add 2 (x % 64) 6 (by omega)]
  have h3 : (2 : Nat) ^ 6 = 64 := by norm_num
  rw [h3]
  omega

theorem version_of_byte (x v : Nat) (hx : x < 16) : (x + v * 16) >>> 4 = v := by
  rw [Nat.shiftRight_eq_div_pow]
  have h : (2 : Nat) ^ 4 = 16 := by norm_num
  rw [h]
  omega

theorem variant_of_byte (z : Nat) : (z % 64 + 128) >>> 6 = 2 := by
  rw [Nat.shiftRight_eq_div_pow]
  have h : (2 : Nat) ^ 6 = 64 := by norm_num
  rw [h]
  omega

/-! ## List indexing helpers -/

theorem getD_set_self (l : List Nat) (i x d : Nat) (h : i < l.length) :
    (l.set i x).getD i d = x := by
  rw [List.getD_eq_getElem?_getD, List.getElem?_set_self h]
  rfl

theorem getD_set_ne (l : List Nat) (i j x d : Nat) (h : i ≠ j) :
    (l.set i x).getD j d = l.getD j d := by
  rw [List.getD_eq_getElem?_getD, List.getElem?_set_ne h, ← List.getD_eq_getElem?_getD]

theorem listCopy_zero_length (x : List Nat) : (listCopy zeroUUID x).length = 16 := by
  simp [listCopy, zeroUUID]
  omega

theorem getD_listCopy_zero (x : List Nat) (i d : Nat) (hi : i < 16)
    (hx : 16 ≤ x.length) : (listCopy zeroUUID x).getD i d = x.getD i d := by
  have hz : zeroUUID.length = 16 := by simp [zeroUUID]
  have hdrop : zeroUUID.drop x.length = [] :=
    List.drop_eq_nil_of_le (by omega)
  rw [listCopy, hdrop, List.append_nil, hz, List.getD_eq_getElem?_getD,
    List.getElem?_take_of_lt hi, ← List.getD_eq_getElem?_getD]

/-! ## Structure of the name-based generators -/

theorem usingHash_spec (digest : List Nat → List Nat) (ns name : List Nat)
    (v : Nat) (hv : v < 16) :
    (usingHash digest ns name v).length = 16 ∧
    Version (usingHash digest ns name v) = v ∧
    (usingHash digest ns name v).getD 8 0 >>> 6 = 2 ∧
    (usingHash digest ns name v).getD 6 0 =
      (listCopy zeroUUID (digest (ns ++ name))).getD 6 0 % 16 + v * 16 ∧
    (usingHash digest ns name v).getD 8 0 =
      (listCopy zeroUUID (digest (ns ++ name))).getD 8 0 % 64 + 128 ∧
    (∀ i, i ≠ 6 → i ≠ 8 →
      (usingHash digest ns name v).getD i 0 =
        (listCopy zeroUUID (digest (ns ++ name))).getD i 0) := by
  set C := listCopy zeroUUID (digest (ns ++ name)) with hC
  have hCl : C.length = 16 := listCopy_zero_length _
  have hb6 : (usingHash digest ns name v).getD 6 0 = C.getD 6 0 % 16 + v * 16 := by
    rw [usingHash, ← hC, setVariant, setVersion,
      getD_set_ne _ 8 6 _ _ (by omega),
      getD_set_self _ 6 _ _ (by omega)]
    exact setVersion_byte _ v hv
  have hb8 : (usingHash digest ns name v).getD 8 0 = C.getD 8 0 % 64 + 128 := by
    rw [usingHash, ← hC, setVariant, setVersion,
      getD_set_self _ 8 _ _ (by simp [hCl]),
      getD_set_ne _ 6 8 _ _ (by omega)]
    exact setVariant_byte _
  refine ⟨by simp [usingHash, ← hC, setVariant, setVersion, hCl], ?_, ?_, hb6, hb8, ?_⟩
  · rw [Version, hb6]
    exact version_of_byte _ v (by omega)
  · rw [hb8]
    exact variant_of_byte _
  · intro i hi6 hi8
    rw [usingHash, ← hC, setVariant, setVersion,
      getD_set_ne _ 8 i _ _ (fun h => hi8 h.symm),
      getD_set_ne _ 6 i _ _ (fun h => hi6 h.symm)]

/-- C4: the v3 generator returns the first 16 bytes of `md5 (namespace ++
name)` with the version nibble overwritten to 3 and the two variant bits of
byte 8 overwritten to `10`, all other bits preserved; likewise v5 with SHA-1
and version 5; and both are pure functions of (hash, namespace, name), hence
deterministic with no side effects. -/
theorem c4_name_based_structure (H : List Nat → List Nat) (ns name : List Nat)
    (hlen : 16 ≤ (H (ns ++ name)).length) :
    ((NewV3 H ns name).length = 16 ∧ (NewV5 H ns name).length = 16) ∧
    (∀ i, i < 16 → i ≠ 6 → i ≠ 8 →
      (NewV3 H ns name).getD i 0 = (H (ns ++ name)).getD i 0 ∧
      (NewV5 H ns name).getD i 0 = (H (ns ++ name)).getD i 0) ∧
    (NewV3 H ns name).getD 6 0 = (H (ns ++ name)).getD 6 0 % 16 + 3 * 16 ∧
    (NewV5 H ns name).getD 6 0 = (H (ns ++ name)).getD 6 0 % 16 + 5 * 16 ∧
    (NewV3 H ns name).getD 8 0 = (H (ns ++ name)).getD 8 0 % 64 + 128 ∧
    (NewV5 H ns name).getD 8 0 = (H (ns ++ name)).getD 8 0 % 64 + 128 ∧
    (∀ ns2 name2, ns2 = ns → name2 = name →
      NewV3 H ns2 name2 = NewV3 H ns name ∧ NewV5 H ns2 name2 = NewV5 H ns name) := by
  have h3 := usingHash_spec H ns name 3 (by omega)
  have h5 := usingHash_spec H ns name 5 (by omega)
  have hc6 := getD_listCopy_zero (H (ns ++ name)) 6 0 (by omega) hlen
  have hc8 := getD_listCopy_zero (H (ns ++ name)) 8 0 (by omega) hlen
  refine ⟨⟨h3.1, h5.1⟩, ?_, ?_, ?_, ?_, ?_, ?_⟩
  · intro i hi hi6 hi8
    have hci := getD_listCopy_zero (H (ns ++ name)) i 0 hi hlen
    exact ⟨by rw [show NewV3 H ns name = usingHash H ns name 3 from rfl,
        (h3.2.2.2.2.2) i hi6 hi8, hci],
      by rw [show NewV5 H ns name = usingHash H ns name 5 from rfl,
        (h5.2.2.2.2.2) i hi6 hi8, hci]⟩
  · rw [show NewV3 H ns name = usingHash H ns name 3 from rfl, h3.2.2.2.1, hc6]
  · rw [show NewV5 H ns name = usingHash H ns name 5 from rfl, h5.2.2.2.1, hc6]
  · rw [show NewV3 H ns name = usingHash H ns name 3 from rfl, h3.2.2.2.2.1, hc8]
  · rw [show NewV5 H ns name = usingHash H ns name 5 from rfl, h5.2.2.2.2.1, hc8]
  · intro ns2 name2 hns hname
    rw [hns, hname]
    exact ⟨rfl, rfl⟩

/-- Witness for C4 with a 20-byte constant digest function. -/
theorem c4_name_based_structure_witness :
    16 ≤ ((fun _ : List Nat => List.replicate 20 7) ([1, 2] ++ [3])).length ∧
    ((NewV3 (fun _ : List Nat => List.replicate 20 7) [1, 2] [3]).getD 6 0 =
      ((fun _ : List Nat => List.replicate 20 7) ([1, 2] ++ [3])).getD 6 0 % 16 + 3 * 16) :=
  ⟨by decide,
    (c4_name_based_structure (fun _ : List Nat => List.replicate 20 7) [1, 2] [3]
      (by decide)).2.2.1⟩

/-- C5: every successfully generated identifier carries its generator's
version in the top nibble of byte 6 and the RFC 4122 variant `10` in the top
two bits of byte 8: v3, v4, v5 and v7. -/
theorem c5_version_and_variant :
    (∀ (H : List Nat → List Nat) ns name,
      Version (NewV3 H ns name) = 3 ∧ (NewV3 H ns name).getD 8 0 >>> 6 = 2 ∧
      Version (NewV5 H ns name) = 5 ∧ (NewV5 H ns name).getD 8 0 >>> 6 = 2) ∧
    (∀ r : List Nat, r.length = 16 →
      Version (NewV4 r) = 4 ∧ (NewV4 r).getD 8 0 >>> 6 = 2) ∧
    (∀ (ms : Int) (r10 : List Nat), r10.length = 10 →
      Version (NewV7 ms r10) = 7 ∧ (NewV7 ms r10).getD 8 0 >>> 6 = 2) := by
  have hgen : ∀ (w : List Nat) (v : Nat), v < 16 → 8 < w.length →
      Version (setVariant (setVersion w v)) = v ∧
      (setVariant (setVersion w v)).getD 8 0 >>> 6 = 2 := by
    intro w v hv h8
    have hb6 : (setVariant (setVersion w v)).getD 6 0 = w.getD 6 0 % 16 + v * 16 := by
      rw [setVariant, setVersion, getD_set_ne _ 8 6 _ _ (by omega),
        getD_set_self _ 6 _ _ (by omega)]
      exact setVersion_byte _ v hv
    have hb8 : (setVariant (setVersion w v)).getD 8 0 =
        (w.set 6 ((w.getD 6 0 &&& 0x0f) ||| ((v <<< 4) % 256))).getD 8 0 % 64 + 128 := by
      rw [setVariant, setVersion, getD_set_self _ 8 _ _ (by simp; omega)]
      exact setVariant_byte _
    refine ⟨?_, ?_⟩
    · rw [Version, hb6]
      exact version_of_byte _ v (by omega)
    · rw [hb8]
      exact variant_of_byte _
  refine ⟨?_, ?_, ?_⟩
  · intro H ns name
    have h3 := usingHash_spec H ns name 3 (by omega)
    have h5 := usingHash_spec H ns name 5 (by omega)
    exact ⟨h3.2.1, h3.2.2.1, h5.2.1, h5.2.2.1⟩
  · intro r hr
    exact hgen r 4 (by omega) (by omega)
  · intro ms r10 hr10
    refine hgen _ 7 (by omega) ?_
    simp [hr10]

/-- Witness for C5 at concrete random bytes and timestamp. -/
theorem c5_version_and_variant_witness :
    (List.replicate 16 9 : List Nat).length = 16 ∧
    (List.replicate 10 9 : List Nat).length = 10 ∧
    Version (NewV4 (List.replicate 16 9)) = 4 ∧
    Version (NewV7 0 (List.replicate 10 9)) = 7 :=
  ⟨by decide, by decide,
    (c5_version_and_variant.2.1 (List.replicate 16 9) (by decide)).1,
    (c5_version_and_variant.2.2 0 (List.replicate 10 9) (by decide)).1⟩

/-! ## Time extraction (v7) -/

theorem setBits_version (w : List Nat) (v : Nat) (hv : v < 16) (h8 : 8 < w.length) :
    Version (setVariant (setVersion w v)) = v := by
  have hb6 : (setVariant (setVersion w v)).getD 6 0 = w.getD 6 0 % 16 + v * 16 := by
    rw [setVariant, setVersion, getD_set_ne _ 8 6 _ _ (by omega),
      getD_set_self _ 6 _ _ (by omega)]
    exact setVersion_byte _ v hv
  rw [Version, hb6]
  exact version_of_byte _ v (by omega)

theorem time_bytes (t0 t1 t2 t3 t4 t5 : Nat) (rest : List Nat)
    (h0 : t0 < 256) (h1 : t1 < 256) (h2 : t2 < 256) (h3 : t3 < 256)
    (h4 : t4 < 256) (h5 : t5 < 256) (hrest : rest.length = 10) :
    Time (setVariant (setVersion ([t0, t1, t2, t3, t4, t5] ++ rest) 7)) =
      (Int.ofNat (t0 * 2 ^ 40 + (t1 * 2 ^ 32 + (t2 * 2 ^ 24 + (t3 * 2 ^ 16 +
        (t4 * 2 ^ 8 + t5))))), true) := by
  have hlen : ([t0, t1, t2, t3, t4, t5] ++ rest).length = 16 := by simp [hrest]
  have hver : Version (setVariant (setVersion ([t0, t1, t2, t3, t4, t5] ++ rest) 7)) = 7 :=
    setBits_version _ 7 (by omega) (by omega)
  rw [Time, if_neg (fun hne => hne hver)]
  have s1 : t5 ||| (t4 <<< 8) = t4 * 2 ^ 8 + t5 := by
    rw [Nat.lor_comm]
    exact shiftLeft_lor_eq_add _ _ _ (by omega)
  have s2 : (t4 * 2 ^ 8 + t5) ||| (t3 <<< 16) = t3 * 2 ^ 16 + (t4 * 2 ^ 8 + t5) := by
    rw [Nat.lor_comm]
    exact shiftLeft_lor_eq_add _ _ _ (by omega)
  have s3 : (t3 * 2 ^ 16 + (t4 * 2 ^ 8 + t5)) ||| (t2 <<< 24) =
      t2 * 2 ^ 24 + (t3 * 2 ^ 16 + (t4 * 2 ^ 8 + t5)) := by
    rw [Nat.lor_comm]
    exact shiftLeft_lor_eq_add _ _ _ (by omega)
  have s4 : (t2 * 2 ^ 24 + (t3 * 2 ^ 16 + (t4 * 2 ^ 8 + t5))) ||| (t1 <<< 32) =
      t1 * 2 ^ 32 + (t2 * 2 ^ 24 + (t3 * 2 ^ 16 + (t4 * 2 ^ 8 + t5))) := by
    rw [Nat.lor_comm]
    exact shiftLeft_lor_eq_add _ _ _ (by omega)
  have s5 : (t1 * 2 ^ 32 + (t2 * 2 ^ 24 + (t3 * 2 ^ 16 + (t4 * 2 ^ 8 + t5)))) |||
      (t0 <<< 40) =
      t0 * 2 ^ 40 + (t1 * 2 ^ 32 + (t2 * 2 ^ 24 + (t3 * 2 ^ 16 + (t4 * 2 ^ 8 + t5)))) := by
    rw [Nat.lor_comm]
    exact shiftLeft_lor_eq_add _ _ _ (by omega)
  have hbytes : (setVariant (setVersion ([t0, t1, t2, t3, t4, t5] ++ rest) 7)).getD 5 0 |||
      ((setVariant (setVersion ([t0, t1, t2, t3, t4, t5] ++ rest) 7)).getD 4 0 <<< 8) |||
      ((setVariant (setVersion ([t0, t1, t2, t3, t4, t5] ++ rest) 7)).getD 3 0 <<< 16) |||
      ((setVariant (setVersion ([t0, t1, t2, t3, t4, t5] ++ rest) 7)).getD 2 0 <<< 24) |||
      ((setVariant (setVersion ([t0, t1, t2, t3, t4, t5] ++ rest) 7)).getD 1 0 <<< 32) |||
      ((setVariant (setVersion ([t0, t1, t2, t3, t4, t5] ++ rest) 7)).getD 0 0 <<< 40) =
      t5 ||| (t4 <<< 8) ||| (t3 <<< 16) ||| (t2 <<< 24) ||| (t1 <<< 32) ||| (t0 <<< 40) := rfl
  rw [hbytes, s1, s2, s3, s4, s5]
  rfl

/-- On a v7 identifier built from an in-range timestamp, `Time` recovers the
timestamp exactly (with the valid flag set). -/
theorem time_newV7 (ms : Int) (r10 : List Nat) (hpos : 0 ≤ ms)
    (hlt : ms < 2 ^ 48) (hr : r10.length = 10) : Time (NewV7 ms r10) = (ms, true) := by
  have hmod : ms % 2 ^ 64 = ms := Int.emod_eq_of_lt hpos (by omega)
  have hM : ms.toNat < 2 ^ 48 := by omega
  rw [NewV7]
  simp only [hmod]
  rw [time_bytes _ _ _ _ _ _ r10 (by omega) (by omega) (by omega) (by omega)
    (by omega) (by omega) hr]
  have harith : (ms.toNat >>> 40) % 256 * 2 ^ 40 + ((ms.toNat >>> 32) % 256 * 2 ^ 32 +
      ((ms.toNat >>> 24) % 256 * 2 ^ 24 + ((ms.toNat >>> 16) % 256 * 2 ^ 16 +
        ((ms.toNat >>> 8) % 256 * 2 ^ 8 + ms.toNat % 256)))) = ms.toNat := by
    simp only [Nat.shiftRight_eq_div_pow]
    omega
  rw [harith]
  simp [Int.toNat_of_nonneg hpos]

/-- On any identifier whose version is not 7, `Time` reports no timestamp. -/
theorem time_not_v7 (u : List Nat) (h : Version u ≠ 7) : Time u = (0, false) := by
  rw [Time, if_pos h]

/-- Counterexample to C6 as stated: at the first out-of-48-bit-range
timestamp (2^48 milliseconds), the generated identifier stores the truncated
value and `Time` returns 0, not the original timestamp. -/
theorem c6_counterexample :
    Time (NewV7 (2 ^ 48) (List.replicate 10 0)) = (0, true) ∧
      ¬Time (NewV7 (2 ^ 48) (List.replicate 10 0)) = ((2 : Int) ^ 48, true) := by
  constructor
  · decide
  · decide

/-- C6 (amended): for every timestamp whose millisecond value lies in
[0, 2^48), the v7 identifier stores it in bytes 0-5 big-endian and `Time`
returns it with valid = true; on any identifier whose version is not 7,
`Time` inspects the version and returns the no-timestamp result (0, false)
rather than an error. -/
theorem c6_time_fidelity :
    (∀ (ms : Int) (r10 : List Nat), 0 ≤ ms → ms < 2 ^ 48 → r10.length = 10 →
      Time (NewV7 ms r10) = (ms, true)) ∧
    (∀ u : List Nat, Version u ≠ 7 → Time u = (0, false)) :=
  ⟨fun ms r10 hpos hlt hr => time_newV7 ms r10 hpos hlt hr,
    fun u h => time_not_v7 u h⟩

/-- Witness for C6 at a concrete timestamp and at a non-v7 identifier. -/
theorem c6_time_fidelity_witness :
    (0 : Int) ≤ 1700000000000 ∧ (1700000000000 : Int) < 2 ^ 48 ∧
    (List.replicate 10 3 : List Nat).length = 10 ∧
    Time (NewV7 1700000000000 (List.replicate 10 3)) = (1700000000000, true) ∧
    Version (List.replicate 16 0) ≠ 7 ∧
    Time (List.replicate 16 0) = (0, false) :=
  ⟨by decide, by decide, by decide,
    c6_time_fidelity.1 1700000000000 (List.replicate 10 3) (by decide) (by decide)
      (by decide),
    by decide,
    c6_time_fidelity.2 (List.replicate 16 0) (by decide)⟩

/-! ## JSON adapter -/

theorem marshalJSON_shape (u : List Nat) (h16 : u.length = 16) :
    (MarshalJSON u).1.length = 38 ∧ (MarshalJSON u).1.getD 0 0 = 34 ∧
      (MarshalJSON u).1.getD 37 0 = 34 ∧
      (((MarshalJSON u).1.drop 1).take 36) = format u := by
  have hflen := format_length u h16
  refine ⟨by simp [MarshalJSON, hflen], rfl, ?_, ?_⟩
  · show (34 :: (format u ++ [34])).getD 37 0 = 34
    rw [List.getD_eq_getElem?_getD, show (37 : Nat) = 36 + 1 from rfl,
      List.getElem?_cons_succ, List.getElem?_append_right (by omega)]
    simp [hflen]
  · show ((34 :: (format u ++ [34])).drop 1).take 36 = format u
    rw [List.drop_succ_cons, List.drop_zero, List.take_left' hflen]

/-- C7: the JSON encoder emits exactly one double quote, the 36-byte
canonical form, and one double quote (38 bytes, never an error); the decoder
accepts exactly 38-byte inputs with quotes at both ends whose interior
canonical-parses, so decode ∘ encode is the identity, and any malformed
quoting or malformed interior fails with the invalid-identifier error
leaving the destination untouched. -/
theorem c7_json_roundtrip (u old b : List Nat) (h16 : u.length = 16)
    (hb : ∀ x ∈ u, x < 256) :
    (MarshalJSON u).1 = 34 :: (format u ++ [34]) ∧
    (MarshalJSON u).1.length = 38 ∧ (MarshalJSON u).2 = none ∧
    UnmarshalJSON old (MarshalJSON u).1 = (u, none) ∧
    (¬(b.length = 38 ∧ b.getD 0 0 = 34 ∧ b.getD 37 0 = 34) →
      UnmarshalJSON old b = (old, some Err.invalidUUID)) ∧
    (b.length = 38 → b.getD 0 0 = 34 → b.getD 37 0 = 34 →
      isOkE (Parse ((b.drop 1).take 36)) = false →
      UnmarshalJSON old b = (old, some Err.invalidUUID)) := by
  obtain ⟨hlen38, hq0, hq37, hint⟩ := marshalJSON_shape u h16
  refine ⟨rfl, hlen38, rfl, ?_, ?_, ?_⟩
  · rw [UnmarshalJSON, if_neg (by push_neg; exact ⟨hlen38, hq0, hq37⟩), hint,
      parse_format_ok u h16 hb]
  · intro hbad
    rw [UnmarshalJSON, if_pos (by tauto)]
  · intro hl hg0 hg37 hfail
    rw [UnmarshalJSON, if_neg (by push_neg; exact ⟨hl, hg0, hg37⟩)]
    cases hp : Parse ((b.drop 1).take 36) with
    | ok id => rw [hp] at hfail; simp [isOkE] at hfail
    | error e =>
      rw [parse_error_unique _ e hp]

/-- Witness for C7 at the spec's example identifier and the malformed
input []. -/
theorem c7_json_roundtrip_witness :
    ([158, 117, 78, 246, 141, 217, 73, 3, 175, 67, 122, 234, 153, 191, 177, 254] :
        List Nat).length = 16 ∧
    ¬(([] : List Nat).length = 38 ∧ ([] : List Nat).getD 0 0 = 34 ∧
        ([] : List Nat).getD 37 0 = 34) ∧
    UnmarshalJSON (List.replicate 16 0)
      (MarshalJSON [158, 117, 78, 246, 141, 217, 73, 3, 175, 67, 122, 234, 153,
        191, 177, 254]).1 =
      ([158, 117, 78, 246, 141, 217, 73, 3, 175, 67, 122, 234, 153, 191, 177, 254],
        none) ∧
    UnmarshalJSON (List.replicate 16 0) [] = (List.replicate 16 0, some Err.invalidUUID) :=
  ⟨by decide, by decide,
    (c7_json_roundtrip [158, 117, 78, 246, 141, 217, 73, 3, 175, 67, 122, 234, 153,
      191, 177, 254] (List.replicate 16 0) [] (by decide) (by decide)).2.2.2.1,
    (c7_json_roundtrip [158, 117, 78, 246, 141, 217, 73, 3, 175, 67, 122, 234, 153,
      191, 177, 254] (List.replicate 16 0) [] (by decide) (by decide)).2.2.2.2.1
      (by decide)⟩

/-- C8: every decode-into-existing-storage operation is atomic on the
16-byte destination: on any failure the stored identifier is unchanged, and
on success it is fully determined by the validated input. -/
theorem c8_unmarshal_atomic :
    (∀ u data : List Nat,
      ((UnmarshalBinary u data).2 ≠ none → (UnmarshalBinary u data).1 = u) ∧
      ((UnmarshalBinary u data).2 = none → (UnmarshalBinary u data).1 = data)) ∧
    (∀ u b : List Nat,
      ((UnmarshalJSON u b).2 ≠ none → (UnmarshalJSON u b).1 = u) ∧
      ((UnmarshalJSON u b).2 = none →
        ∃ id, Parse ((b.drop 1).take 36) = .ok id ∧ (UnmarshalJSON u b).1 = id)) ∧
    (∀ u t : List Nat,
      ((UnmarshalText u t).2 ≠ none → (UnmarshalText u t).1 = u) ∧
      ((UnmarshalText u t).2 = none →
        ∃ id, Parse t = .ok id ∧ (UnmarshalText u t).1 = id)) ∧
    (∀ (u : List Nat) (src : ScanSrc),
      ((Scan u src).2 ≠ none → (Scan u src).1 = u) ∧
      ((Scan u src).2 = none → ∀ u2, (Scan u2 src).1 = (Scan u src).1)) := by
  refine ⟨?_, ?_, ?_, ?_⟩
  · intro u data
    rw [UnmarshalBinary]
    split_ifs with h <;> simp
  · intro u b
    rw [UnmarshalJSON]
    split_ifs with h
    · simp
    · cases hp : Parse ((b.drop 1).take 36) with
      | ok id => exact ⟨by simp, fun _ => ⟨id, rfl, rfl⟩⟩
      | error e => simp
  · intro u t
    rw [UnmarshalText]
    cases hp : Parse t with
    | ok id => exact ⟨by simp, fun _ => ⟨id, rfl, rfl⟩⟩
    | error e => simp
  · intro u src
    cases src with
    | bytes v =>
      show _ ∧ _
      rw [Scan]
      cases hp : Parse v with
      | ok id => exact ⟨by simp, fun _ u2 => by rw [Scan, hp]⟩
      | error e => simp
    | str v =>
      rw [Scan]
      cases hp : ParseString v with
      | ok id => exact ⟨by simp, fun _ u2 => by rw [Scan, hp]⟩
      | error e => simp
    | other => simp [Scan]

/-- Witness for C8: a failing text decode leaves the destination unchanged,
and a succeeding binary decode fully overwrites it. -/
theorem c8_unmarshal_atomic_witness :
    (UnmarshalText (List.replicate 16 0) [98, 97, 100]).2 ≠ none ∧
    (UnmarshalText (List.replicate 16 0) [98, 97, 100]).1 = List.replicate 16 0 ∧
    (UnmarshalBinary (List.replicate 16 0) (List.replicate 16 7)).2 = none ∧
    (UnmarshalBinary (List.replicate 16 0) (List.replicate 16 7)).1 =
      List.replicate 16 7 :=
  ⟨by decide,
    (c8_unmarshal_atomic.2.2.1 (List.replicate 16 0) [98, 97, 100]).1 (by decide),
    by decide,
    (c8_unmarshal_atomic.1 (List.replicate 16 0) (List.replicate 16 7)).2 (by decide)⟩

/-! ## No out-of-bounds access in parsing -/

/-- Input span the loop still needs: each group plus one separator slot. -/
def lensCost : List Nat → Nat
  | [] => 0
  | c :: ls => c + 1 + lensCost ls

/-- Output bytes the loop still writes. -/
def lensHalves : List Nat → Nat
  | [] => 0
  | c :: ls => c / 2 + lensHalves ls

theorem parseLoopC_cons (b : List Nat) (cnt : Nat) (lens : List Nat) (iu ib : Nat)
    (u : List Nat) :
    parseLoopC b (cnt :: lens) iu ib u =
      match goSlice b ib (ib + cnt) with
      | none => none
      | some seg =>
        if 16 - iu < cnt / 2 then none
        else
          match hexDecode seg with
          | none => some (.error Err.invalidUUID)
          | some ds =>
            if lens ≠ [] then
              match goIndex b (ib + cnt) with
              | none => none
              | some c =>
                if c ≠ dash then some (.error Err.invalidUUID)
                else parseLoopC b lens (iu + cnt / 2) (ib + cnt + 1) (listWriteAt u iu ds)
            else parseLoopC b lens (iu + cnt / 2) (ib + cnt + 1) (listWriteAt u iu ds) := rfl

theorem parseFormattedGo_cons (b : List Nat) (cnt : Nat) (lens : List Nat)
    (iu ib : Nat) (u : List Nat) :
    parseFormattedGo b (cnt :: lens) iu ib u =
      match hexDecode ((b.drop ib).take cnt) with
      | none => .error Err.invalidUUID
      | some ds =>
        if lens ≠ [] ∧ b.getD (ib + cnt) 0 ≠ dash then .error Err.invalidUUID
        else parseFormattedGo b lens (iu + cnt / 2) (ib + cnt + 1) (listWriteAt u iu ds) := rfl

theorem get?_eq_some_getD (l : List Nat) (i d : Nat) (h : i < l.length) :
    l.get? i = some (l.getD i d) := by
  rw [List.get?_eq_getElem?, List.getElem?_eq_getElem h, List.getD_eq_getElem?_getD,
    List.getElem?_eq_getElem h]
  rfl

theorem parseLoopC_eq (b : List Nat) : ∀ (lens : List Nat) (iu ib : Nat) (u : List Nat),
    ib + lensCost lens ≤ b.length + 1 → iu + lensHalves lens ≤ 16 →
    parseLoopC b lens iu ib u = some (parseFormattedGo b lens iu ib u) := by
  intro lens
  induction lens with
  | nil => intro iu ib u _ _; rfl
  | cons cnt lens ih =>
    intro iu ib u hc hh
    rw [parseLoopC_cons, parseFormattedGo_cons]
    rw [lensCost] at hc
    rw [lensHalves] at hh
    have harg : ib + cnt - ib = cnt := by omega
    have hslice : goSlice b ib (ib + cnt) = some ((b.drop ib).take cnt) := by
      rw [goSlice, if_pos ⟨by omega, by omega⟩, harg]
    rw [hslice]
    simp only []
    rw [if_neg (by omega)]
    cases hexDecode ((b.drop ib).take cnt) with
    | none => rfl
    | some ds =>
      simp only []
      cases lens with
      | nil =>
        have hne : ¬(([] : List Nat) ≠ []) := fun hcon => hcon rfl
        have hne2 : ¬((([] : List Nat) ≠ []) ∧ b.getD (ib + cnt) 0 ≠ dash) :=
          fun hcon => hcon.1 rfl
        rw [if_neg hne, if_neg hne2]
        exact ih (iu + cnt / 2) (ib + cnt + 1) (listWriteAt u iu ds)
          (by omega) (by omega)
      | cons c2 lens2 =>
        have hnil : (c2 :: lens2 : List Nat) ≠ [] := by simp
        rw [if_pos hnil]
        have hcost2 : 1 ≤ lensCost (c2 :: lens2) := by rw [lensCost]; omega
        have hidx : goIndex b (ib + cnt) = some (b.getD (ib + cnt) 0) := by
          rw [goIndex]
          exact get?_eq_some_getD b (ib + cnt) 0 (by omega)
        rw [hidx]
        simp only []
        by_cases hdash : b.getD (ib + cnt) 0 = dash
        · have hne : ¬(b.getD (ib + cnt) 0 ≠ dash) := fun hcon => hcon hdash
          have hne2 : ¬((c2 :: lens2 : List Nat) ≠ [] ∧ b.getD (ib + cnt) 0 ≠ dash) :=
            fun hcon => hcon.2 hdash
          rw [if_neg hne, if_neg hne2]
          exact ih (iu + cnt / 2) (ib + cnt + 1) (listWriteAt u iu ds)
            (by omega) (by omega)
        · have hpos2 : (c2 :: lens2 : List Nat) ≠ [] ∧ b.getD (ib + cnt) 0 ≠ dash :=
            ⟨hnil, hdash⟩
          rw [if_pos hdash, if_pos hpos2]

/-- C9: parsing is total over arbitrary input: the checked model (in which
every slice/index access out of bounds is a panic, `none`) always returns
normally and agrees with `Parse`; the only panicking operation is `Must`,
which panics exactly when its error argument is non-nil and otherwise
returns its identifier argument unchanged. -/
theorem c9_parse_never_panics :
    (∀ b : List Nat, ParseChecked b = some (Parse b)) ∧
    (∀ (u : List Nat) (e : Err), Must u (some e) = .panicked e) ∧
    (∀ u : List Nat, Must u none = .value u) := by
  refine ⟨?_, fun u e => rfl, fun u => rfl⟩
  intro b
  rw [ParseChecked, Parse]
  by_cases h16 : b.length = 16
  · rw [if_pos h16, if_pos h16]
  · rw [if_neg h16, if_neg h16]
    by_cases h32 : b.length = 32
    · rw [if_pos h32, if_pos h32]
      cases hexDecode b <;> rfl
    · rw [if_neg h32, if_neg h32]
      by_cases h36 : b.length = 36
      · rw [if_pos h36, if_pos h36, parseFormatted]
        exact parseLoopC_eq b uuidHexLengths 0 0 zeroUUID
          (by rw [h36]; decide) (by decide)
      · rw [if_neg h36, if_neg h36]

/-- C10: the plain-text renderings agree byte for byte: `Bytes`, `String`,
the text-marshal output and the SQL `Value` output are all exactly the
36-byte canonical form produced by `Format`/`format` — in particular the SQL
adapter emits the 36-byte text form, not the 16-byte binary form. -/
theorem c10_renderings_agree (u : List Nat) :
    Bytes u = format u ∧ String u = format u ∧ (MarshalText u).1 = format u ∧
    (Value u).1 = format u ∧
    (u.length = 16 → (Value u).1.length = 36 ∧ (Value u).1 ≠ (MarshalBinary u).1) := by
  refine ⟨rfl, rfl, rfl, rfl, fun h16 => ⟨format_length u h16, fun heq => ?_⟩⟩
  have h1 : (Value u).1.length = 36 := format_length u h16
  have h2 : (MarshalBinary u).1.length = 16 := h16
  rw [heq, h2] at h1
  omega

/-- Witness for C10 at the spec's example identifier. -/
theorem c10_renderings_agree_witness :
    ([158, 117, 78, 246, 141, 217, 73, 3, 175, 67, 122, 234, 153, 191, 177, 254] :
        List Nat).length = 16 ∧
    (Value [158, 117, 78, 246, 141, 217, 73, 3, 175, 67, 122, 234, 153, 191, 177,
      254]).1.length = 36 :=
  ⟨by decide,
    ((c10_renderings_agree [158, 117, 78, 246, 141, 217, 73, 3, 175, 67, 122, 234,
      153, 191, 177, 254]).2.2.2.2 (by decide)).1⟩

end UUIDSpec
